import Mathlib

/-!
Verification of the RayTracer repository (src/RayTracer/main.cpp,
src/RayTracer/rtweekend.h) against its natural-language specification.

Real-number scalars of the C++ code (`double`) are modelled by exact
rationals `ℚ`.  The vector/ray value library, the polymorphic
hittable/material capabilities and the color formatting helper live in
headers that are outside the core sources; they are modelled from the
specification's collaborator-boundary contracts and marked as such.
-/

namespace RayTracer

/-- Modelled from the spec: the 3D vector value type of the external
vector/ray library (`vec3.h`), an opaque value type with component
access `x() y() z()`. Also used as `color` and `point3`, as in the
source's aliases. -/
structure Vec3 where
  x : ℚ
  y : ℚ
  z : ℚ
deriving DecidableEq, Repr

/-- Modelled from the spec: component-wise addition of the vector library. -/
instance : Add Vec3 := ⟨fun a b => ⟨a.x + b.x, a.y + b.y, a.z + b.z⟩⟩

/-- Modelled from the spec: component-wise subtraction of the vector library. -/
instance : Sub Vec3 := ⟨fun a b => ⟨a.x - b.x, a.y - b.y, a.z - b.z⟩⟩

/-- Modelled from the spec: component-wise (Hadamard) multiplication of the
vector library, the `attenuation * color` operation of the path tracer. -/
instance : Mul Vec3 := ⟨fun a b => ⟨a.x * b.x, a.y * b.y, a.z * b.z⟩⟩

/-- Modelled from the spec: scalar multiplication `t * v` of the vector
library. -/
instance : SMul ℚ Vec3 := ⟨fun t v => ⟨t * v.x, t * v.y, t * v.z⟩⟩

/-- Modelled from the spec: `vec3::length_squared()`, the sum of squared
components. -/
def Vec3.length_squared (v : Vec3) : ℚ :=
  v.x * v.x + v.y * v.y + v.z * v.z

/-- Exact rational square root: the unique nonnegative rational square root
when one exists, `0` otherwise.  This models the real `std::sqrt` of the
source exactly on perfect squares; every property proved below depends only
on that agreement. -/
def ratSqrt (q : ℚ) : ℚ :=
  let n := Nat.sqrt q.num.toNat
  let d := Nat.sqrt q.den
  if ((n : ℤ) * n = q.num ∧ d * d = q.den) then (n : ℚ) / (d : ℚ) else 0

/-- Modelled from the spec: `vec3::length()`, the square root of
`length_squared`. -/
def Vec3.length (v : Vec3) : ℚ :=
  ratSqrt v.length_squared

/-- Modelled from the spec: `unit_vector(v) = v / v.length()`, the normalize
operation of the vector library. -/
def unit_vector (v : Vec3) : Vec3 :=
  ⟨v.x / v.length, v.y / v.length, v.z / v.length⟩

/-- Modelled from the spec: the ray value type of the external vector/ray
library (`ray.h`): an origin point and a direction vector, with accessors
`origin()` and `direction()`. -/
structure Ray where
  orig : Vec3
  dir : Vec3
deriving DecidableEq, Repr

/-- Modelled from the spec: the fields of a hit record apart from the
material reference — hit point, surface normal, parametric distance `t`,
front/back-face flag (`hittable.h`). -/
structure HitData where
  p : Vec3
  normal : Vec3
  t : ℚ
  front_face : Bool

/-- Modelled from the spec: the polymorphic scatter capability
(`material.h` is outside the core sources).  `scatter ray_in hit_data`
consumes the incoming ray and the hit record and yields either
`(attenuation, scattered_ray)` or absorption (`none`).  The stochastic
draws made inside the concrete materials are absorbed into the function
itself. -/
structure MaterialRef where
  scatter : Ray → HitData → Option (Vec3 × Ray)

/-- Modelled from the spec: the full hit record produced by an intersection
query — the geometric data together with a reference to the struck
surface's material (`mat_ptr`). -/
structure HitRecord where
  data : HitData
  mat_ptr : MaterialRef

/-- `MIN_HIT_LIMIT` (main.cpp line 15): the lower parametric bound `0.001`
used for every scene intersection query. -/
def MIN_HIT_LIMIT : ℚ := 1 / 1000

/-- Positive infinity (rtweekend.h line 18), the upper parametric bound of
every scene intersection query; the IEEE `+inf` upper bound is modelled as
the absence of a finite bound. -/
def infinity : Option ℚ := none

/-- Modelled from the spec: the polymorphic intersectable capability
(`hittable.h`, `hittable_list.h` are outside the core sources).
`hit r t_min t_max` reports the nearest hit record with parametric
distance in the open interval `(t_min, t_max)`, or `none`; `t_max = none`
encodes `+infinity`. -/
structure Hittable where
  hit : Ray → ℚ → Option ℚ → Option HitRecord

/-- Modelled from the spec: a `hittable_list` with zero objects reports no
hit for any ray and any parametric bounds. -/
def empty_world : Hittable :=
  ⟨fun _ _ _ => none⟩

/-- `ray_color` (main.cpp lines 25-43): the recursive path tracer.
Depth exhausted: black.  Hit and scatter: attenuation times the recursive
shade of the scattered ray at `depth - 1`.  Hit and absorb: black.
Miss: the vertical sky gradient over the normalized direction's `y`. -/
def ray_color (r : Ray) (world : Hittable) (depth : ℤ) : Vec3 :=
  if _h : depth ≤ 0 then ⟨0, 0, 0⟩
  else
    match world.hit r MIN_HIT_LIMIT infinity with
    | some rec =>
      match rec.mat_ptr.scatter r rec.data with
      | some (attenuation, scattered) =>
          attenuation * ray_color scattered world (depth - 1)
      | none => ⟨0, 0, 0⟩
    | none =>
      let unit_direction := unit_vector r.dir
      let t : ℚ := (1 / 2) * (unit_direction.y + 1)
      (1 - t) • (⟨1, 1, 1⟩ : Vec3) + t • (⟨1 / 2, 7 / 10, 1⟩ : Vec3)
termination_by depth.toNat
decreasing_by
  omega

/-- The sky gradient of the miss branch of `ray_color` (main.cpp lines
40-42), as a standalone function of the ray. -/
def sky_color (r : Ray) : Vec3 :=
  let unit_direction := unit_vector r.dir
  let t : ℚ := (1 / 2) * (unit_direction.y + 1)
  (1 - t) • (⟨1, 1, 1⟩ : Vec3) + t • (⟨1 / 2, 7 / 10, 1⟩ : Vec3)

/-- The bounded-iteration reference semantics for the path tracer: a
structurally recursive version of `ray_color` that consumes one unit of
fuel per bounce.  `ray_color` agrees with it whenever the fuel is at least
the bounce budget, which is the formal content of the termination claim. -/
def ray_color_fuel : ℕ → Ray → Hittable → ℤ → Vec3
  | 0, _, _, _ => ⟨0, 0, 0⟩
  | fuel + 1, r, world, depth =>
    if depth ≤ 0 then ⟨0, 0, 0⟩
    else
      match world.hit r MIN_HIT_LIMIT infinity with
      | some rec =>
        match rec.mat_ptr.scatter r rec.data with
        | some (attenuation, scattered) =>
            attenuation * ray_color_fuel fuel scattered world (depth - 1)
        | none => ⟨0, 0, 0⟩
      | none => sky_color r

@[simp]
lemma Vec3.add_x (a b : Vec3) : (a + b).x = a.x + b.x := rfl

@[simp]
lemma Vec3.add_y (a b : Vec3) : (a + b).y = a.y + b.y := rfl

@[simp]
lemma Vec3.add_z (a b : Vec3) : (a + b).z = a.z + b.z := rfl

@[simp]
lemma Vec3.sub_x (a b : Vec3) : (a - b).x = a.x - b.x := rfl

@[simp]
lemma Vec3.sub_y (a b : Vec3) : (a - b).y = a.y - b.y := rfl

@[simp]
lemma Vec3.sub_z (a b : Vec3) : (a - b).z = a.z - b.z := rfl

@[simp]
lemma Vec3.mul_x (a b : Vec3) : (a * b).x = a.x * b.x := rfl

@[simp]
lemma Vec3.mul_y (a b : Vec3) : (a * b).y = a.y * b.y := rfl

@[simp]
lemma Vec3.mul_z (a b : Vec3) : (a * b).z = a.z * b.z := rfl

@[simp]
lemma Vec3.smul_x (t : ℚ) (v : Vec3) : (t • v).x = t * v.x := rfl

@[simp]
lemma Vec3.smul_y (t : ℚ) (v : Vec3) : (t • v).y = t * v.y := rfl

@[simp]
lemma Vec3.smul_z (t : ℚ) (v : Vec3) : (t • v).z = t * v.z := rfl

lemma sky_color_z (r : Ray) : (sky_color r).z = 1 := by
  simp [sky_color]

lemma sky_color_ne_black (r : Ray) : sky_color r ≠ ⟨0, 0, 0⟩ := by
  intro hcontra
  have hz := congrArg Vec3.z hcontra
  rw [sky_color_z r] at hz
  exact one_ne_zero hz

/-- Claim C2: for every ray and every scene, if `depth ≤ 0` then
`ray_color` returns exactly black `(0, 0, 0)`, regardless of scene
content. -/
theorem ray_color_depth_exhausted_black (r : Ray) (world : Hittable) (depth : ℤ)
    (hd : depth ≤ 0) : ray_color r world depth = ⟨0, 0, 0⟩ := by
  rw [ray_color]
  simp [hd]

/-- Witness for claim C2 at a concrete ray, scene and depth. -/
theorem ray_color_depth_exhausted_black_witness :
    ray_color ⟨⟨0, 0, 0⟩, ⟨1, 0, 0⟩⟩ empty_world 0 = ⟨0, 0, 0⟩ :=
  ray_color_depth_exhausted_black ⟨⟨0, 0, 0⟩, ⟨1, 0, 0⟩⟩ empty_world 0 (by decide)

/-- Claim C1: with a positive bounce budget, when the scene reports a hit
for the ray over the parametric interval `(MIN_HIT_LIMIT, +infinity)`,
then if the struck material's scatter call yields an attenuation and a
scattered ray, `ray_color` is the component-wise product of the
attenuation with `ray_color` of the scattered ray at `depth - 1`; and if
the scatter call absorbs, `ray_color` is black. -/
theorem ray_color_hit_scatter_cases (r : Ray) (world : Hittable) (depth : ℤ)
    (hd : 0 < depth) (rec : HitRecord)
    (hhit : world.hit r MIN_HIT_LIMIT infinity = some rec) :
    (∀ attenuation scattered,
      rec.mat_ptr.scatter r rec.data = some (attenuation, scattered) →
      ray_color r world depth = attenuation * ray_color scattered world (depth - 1)) ∧
    (rec.mat_ptr.scatter r rec.data = none →
      ray_color r world depth = ⟨0, 0, 0⟩) := by
  have hd' : ¬ depth ≤ 0 := by omega
  constructor
  · intro attenuation scattered hscat
    rw [ray_color]
    simp [hd', hhit, hscat]
  · intro habs
    rw [ray_color]
    simp [hd', hhit, habs]

/-- Test fixture: a material that always scatters with attenuation
`(1/2, 1/2, 1/2)` along the fixed ray `((0,0,0), (0,1,0))`. -/
def mat0 : MaterialRef :=
  ⟨fun _ _ => some (⟨1 / 2, 1 / 2, 1 / 2⟩, ⟨⟨0, 0, 0⟩, ⟨0, 1, 0⟩⟩)⟩

/-- Test fixture: a hit record carrying `mat0`. -/
def rec0 : HitRecord :=
  ⟨⟨⟨0, 0, 0⟩, ⟨0, 1, 0⟩, 1, true⟩, mat0⟩

/-- Test fixture: a scene whose intersection query always reports
`rec0`. -/
def world0 : Hittable :=
  ⟨fun _ _ _ => some rec0⟩

/-- Witness for claim C1 at a concrete ray, scene, material and depth. -/
theorem ray_color_hit_scatter_cases_witness :
    ray_color ⟨⟨0, 0, 0⟩, ⟨1, 0, 0⟩⟩ world0 2
      = (⟨1 / 2, 1 / 2, 1 / 2⟩ : Vec3) * ray_color ⟨⟨0, 0, 0⟩, ⟨0, 1, 0⟩⟩ world0 1 :=
  (ray_color_hit_scatter_cases ⟨⟨0, 0, 0⟩, ⟨1, 0, 0⟩⟩ world0 2 (by decide) rec0 rfl).1
    ⟨1 / 2, 1 / 2, 1 / 2⟩ ⟨⟨0, 0, 0⟩, ⟨0, 1, 0⟩⟩ rfl

/-- Claim C3: with a positive bounce budget, a ray the scene misses is
shaded with the sky gradient `(1-t)*(1,1,1) + t*(1/2,7/10,1)` where
`t = (1/2)*(y+1)` and `y` is the vertical component of the normalized
direction; in particular every ray in the zero-object scene is, and the
sky gradient is never black. -/
theorem ray_color_miss_sky (r : Ray) (world : Hittable) (depth : ℤ)
    (hd : 0 < depth)
    (hmiss : world.hit r MIN_HIT_LIMIT infinity = none) :
    ray_color r world depth = sky_color r ∧
    ray_color r empty_world depth = sky_color r ∧
    sky_color r ≠ ⟨0, 0, 0⟩ := by
  have hd' : ¬ depth ≤ 0 := by omega
  refine ⟨?_, ?_, sky_color_ne_black r⟩
  · rw [ray_color]
    simp [hd', hmiss, sky_color]
  · rw [ray_color]
    simp [hd', empty_world, sky_color]

/-- Witness for claim C3 at a concrete ray and depth in the zero-object
scene. -/
theorem ray_color_miss_sky_witness :
    ray_color ⟨⟨0, 0, 0⟩, ⟨0, 0, 1⟩⟩ empty_world 1 = sky_color ⟨⟨0, 0, 0⟩, ⟨0, 0, 1⟩⟩ ∧
    ray_color ⟨⟨0, 0, 0⟩, ⟨0, 0, 1⟩⟩ empty_world 1 = sky_color ⟨⟨0, 0, 0⟩, ⟨0, 0, 1⟩⟩ ∧
    sky_color ⟨⟨0, 0, 0⟩, ⟨0, 0, 1⟩⟩ ≠ ⟨0, 0, 0⟩ :=
  ray_color_miss_sky ⟨⟨0, 0, 0⟩, ⟨0, 0, 1⟩⟩ empty_world 1 (by decide) rfl

/-- Claim C4: `ray_color` terminates for every ray, scene and integer
depth; the recursion strictly decreases `depth` and bottoms out after at
most `depth` bounces: with any fuel of at least `depth.toNat` bounces the
bounded iteration `ray_color_fuel` already computes `ray_color`. -/
theorem ray_color_terminates_fuel (fuel : ℕ) (r : Ray) (world : Hittable)
    (depth : ℤ) (hfuel : depth.toNat ≤ fuel) :
    ray_color r world depth = ray_color_fuel fuel r world depth := by
  induction fuel generalizing r depth with
  | zero =>
    have hd : depth ≤ 0 := by omega
    rw [ray_color]
    simp [hd, ray_color_fuel]
  | succ fuel ih =>
    by_cases hd : depth ≤ 0
    · rw [ray_color]
      simp [hd, ray_color_fuel]
    · have h1 : (depth - 1).toNat ≤ fuel := by omega
      rw [ray_color, ray_color_fuel]
      cases hhit : world.hit r MIN_HIT_LIMIT infinity with
      | none => simp [hd, sky_color]
      | some rec =>
        cases hscat : rec.mat_ptr.scatter r rec.data with
        | none => simp [hd, hscat]
        | some pair =>
          cases pair with
          | mk attenuation scattered =>
            simp only [hd, hscat, dite_eq_ite, if_false]
            rw [ih scattered (depth - 1) h1]

/-- Witness for claim C4 at a concrete ray, scene, depth and fuel. -/
theorem ray_color_terminates_fuel_witness :
    ray_color ⟨⟨0, 0, 0⟩, ⟨0, 0, 1⟩⟩ empty_world 3
      = ray_color_fuel 3 ⟨⟨0, 0, 0⟩, ⟨0, 0, 1⟩⟩ empty_world 3 :=
  ray_color_terminates_fuel 3 ⟨⟨0, 0, 0⟩, ⟨0, 0, 1⟩⟩ empty_world 3 (by decide)

/-- `row_segment` (main.cpp line 131): the band height
`image_height / thread_count`, by integer division. -/
def row_segment (image_height thread_count : ℕ) : ℕ :=
  image_height / thread_count

/-- The rows processed by the `k`-th worker spawned by
`multithreaded_raytracing` (main.cpp lines 127-139): `cur_row` starts at 0
and advances by `row_segment` per spawned thread, so worker `k` runs
`process_matrix_rows` over rows `k * row_segment` through
`k * row_segment + row_segment - 1` inclusive.  A zero segment gives the
empty band, matching the C++ row loop `for (j = start; j <= end)` with
`end = start - 1`. -/
def band_rows (image_height thread_count k : ℕ) : List ℕ :=
  List.range' (k * row_segment image_height thread_count)
    (row_segment image_height thread_count)

lemma mem_band_rows (H N k j : ℕ) :
    j ∈ band_rows H N k ↔ k * (H / N) ≤ j ∧ j < k * (H / N) + H / N := by
  unfold band_rows row_segment
  exact List.mem_range'_1

lemma band_rows_length (H N k : ℕ) : (band_rows H N k).length = H / N := by
  unfold band_rows
  exact List.length_range' _ _ _

lemma band_rows_disjoint (H N : ℕ) (j k k' : ℕ)
    (hk : j ∈ band_rows H N k) (hk' : j ∈ band_rows H N k') : k = k' := by
  rw [mem_band_rows] at hk hk'
  by_contra hne
  rcases Nat.lt_or_ge k k' with hlt | hge
  · have h1 : (k + 1) * (H / N) ≤ k' * (H / N) := Nat.mul_le_mul_right _ hlt
    rw [Nat.add_mul, Nat.one_mul] at h1
    omega
  · have hlt' : k' < k := Nat.lt_of_le_of_ne hge (fun h => hne h.symm)
    have h1 : (k' + 1) * (H / N) ≤ k * (H / N) := Nat.mul_le_mul_right _ hlt'
    rw [Nat.add_mul, Nat.one_mul] at h1
    omega

lemma band_rows_cover (H N : ℕ) (j : ℕ) :
    (∃ k, k < N ∧ j ∈ band_rows H N k) ↔ j < N * (H / N) := by
  constructor
  · rintro ⟨k, hkN, hmem⟩
    rw [mem_band_rows] at hmem
    have h1 : (k + 1) * (H / N) ≤ N * (H / N) := Nat.mul_le_mul_right _ hkN
    rw [Nat.add_mul, Nat.one_mul] at h1
    omega
  · intro hj
    rcases Nat.eq_zero_or_pos (H / N) with hseg | hseg
    · rw [hseg] at hj
      omega
    · refine ⟨j / (H / N), ?_, ?_⟩
      · exact (Nat.div_lt_iff_lt_mul hseg).mpr hj
      · rw [mem_band_rows]
        have hle : j / (H / N) * (H / N) ≤ j := Nat.div_mul_le_self j (H / N)
        have hmod := Nat.div_add_mod j (H / N)
        have hmlt : j % (H / N) < H / N := Nat.mod_lt j hseg
        rw [Nat.mul_comm (j / (H / N)) (H / N)]
        omega

/-- Claim C5: `multithreaded_raytracing` partitions the `H` image rows
among `N` workers into `N` contiguous pairwise-disjoint bands of exactly
`H / N` rows each; together the bands cover exactly the rows
`0 .. N * (H / N) - 1`, so when `N` divides `H` every row belongs to
exactly one worker, and otherwise the trailing `H % N` rows belong to no
worker. -/
theorem multithreaded_row_partition (H N : ℕ) (hN : 0 < N) :
    (∀ k, k < N → (band_rows H N k).length = H / N) ∧
    (∀ k j, j ∈ band_rows H N k ↔ k * (H / N) ≤ j ∧ j < k * (H / N) + H / N) ∧
    (∀ j k k', j ∈ band_rows H N k → j ∈ band_rows H N k' → k = k') ∧
    (∀ j, (∃ k, k < N ∧ j ∈ band_rows H N k) ↔ j < N * (H / N)) ∧
    (N ∣ H → ∀ j, j < H → ∃! k, k < N ∧ j ∈ band_rows H N k) ∧
    (∀ j, N * (H / N) ≤ j → ∀ k, k < N → j ∉ band_rows H N k) := by
  refine ⟨fun k _ => band_rows_length H N k,
    fun k j => mem_band_rows H N k j,
    fun j k k' => band_rows_disjoint H N j k k',
    fun j => band_rows_cover H N j, ?_, ?_⟩
  · intro hdvd j hj
    have hH : N * (H / N) = H := Nat.mul_div_cancel' hdvd
    obtain ⟨k, hkN, hmem⟩ := (band_rows_cover H N j).mpr (by omega)
    exact ⟨k, ⟨hkN, hmem⟩, fun k' hk' => band_rows_disjoint H N j k' k hk'.2 hmem⟩
  · intro j hj k hkN hmem
    have := (band_rows_cover H N j).mp ⟨k, hkN, hmem⟩
    omega

/-- Witness for claim C5 at image height 3 and worker count 2 (a
non-dividing pair: row 2 is the dropped remainder row). -/
theorem multithreaded_row_partition_witness :
    (∀ k, k < 2 → (band_rows 3 2 k).length = 3 / 2) ∧
    (∀ k j, j ∈ band_rows 3 2 k ↔ k * (3 / 2) ≤ j ∧ j < k * (3 / 2) + 3 / 2) ∧
    (∀ j k k', j ∈ band_rows 3 2 k → j ∈ band_rows 3 2 k' → k = k') ∧
    (∀ j, (∃ k, k < 2 ∧ j ∈ band_rows 3 2 k) ↔ j < 2 * (3 / 2)) ∧
    (2 ∣ 3 → ∀ j, j < 3 → ∃! k, k < 2 ∧ j ∈ band_rows 3 2 k) ∧
    (∀ j, 2 * (3 / 2) ≤ j → ∀ k, k < 2 → j ∉ band_rows 3 2 k) :=
  multithreaded_row_partition 3 2 (by decide)

/-- The empty string, the out-of-range default used with `List.getD` over
output lines. -/
def blank : String := ""

/-- C++ `static_cast<int>` applied to a floating-point channel value
(main.cpp line 186): truncation toward zero. -/
def cpp_int (q : ℚ) : ℤ :=
  if 0 ≤ q then ⌊q⌋ else ⌈q⌉

/-- One pixel line of the output dump (main.cpp line 186): the three
channel values of the cell, cast to `int`, space-separated. -/
def pixel_line (c : Vec3) : String :=
  toString (cpp_int c.x) ++ " " ++ toString (cpp_int c.y) ++ " " ++ toString (cpp_int c.z)

/-- The three header lines of the output dump (main.cpp line 181):
`P3`, then `<width> <height>`, then `255`. -/
def header_lines (width height : ℕ) : List String :=
  ["P3", toString width ++ " " ++ toString height, "255"]

/-- The pixel lines of one buffer row `j`, columns `i = 0 .. width-1`
(main.cpp lines 185-187). -/
def row_lines (width : ℕ) (m : ℕ → ℕ → Vec3) (j : ℕ) : List String :=
  (List.range width).map (fun i => pixel_line (m j i))

/-- The full output file as a list of lines (main.cpp lines 181-188):
the header followed by the rows dumped from `j = height-1` down to
`j = 0`. -/
def ppm_lines (width height : ℕ) (m : ℕ → ℕ → Vec3) : List String :=
  header_lines width height ++ ((List.range height).reverse.map (row_lines width m)).flatten

/-- Modelled from the spec: a default-constructed `color()` of the vector
library is the zero vector. -/
def color_default : Vec3 := ⟨0, 0, 0⟩

/-- `image_matrix` (main.cpp lines 93-101): allocates a height-by-width
buffer and stores a default-constructed `color()` into every cell. -/
def image_matrix (width height : ℕ) : List (List Vec3) :=
  List.replicate height (List.replicate width color_default)

/-- Reading cell `(j, i)` of a buffer, `output_matrix[j][i]`. -/
def cell (m : List (List Vec3)) (j i : ℕ) : Vec3 :=
  (m.getD j []).getD i color_default

/-- Whether row `j` belongs to some worker's band under the partition of
`multithreaded_raytracing` (main.cpp lines 127-139). -/
def row_assigned (image_height thread_count j : ℕ) : Bool :=
  (List.range thread_count).any (fun k => decide (j ∈ band_rows image_height thread_count k))

lemma row_assigned_iff (H N j : ℕ) :
    row_assigned H N j = true ↔ ∃ k, k < N ∧ j ∈ band_rows H N k := by
  simp [row_assigned, List.any_eq_true, List.mem_range]

/-- The pixel buffer after `multithreaded_raytracing` joins: each worker
runs `process_matrix_rows` (main.cpp lines 108-125) over exactly its band,
writing `output_matrix[j][i]` for every cell of every row of the band, and
touches no other row; so a cell of an assigned row holds that worker's
shaded value while a cell of an unassigned row keeps its `image_matrix`
initialization.  The per-cell shaded value (sampling plus `format_color`)
is abstracted as `shade`. -/
def rendered_cell (width image_height thread_count : ℕ) (shade : ℕ → ℕ → Vec3)
    (j i : ℕ) : Vec3 :=
  if row_assigned image_height thread_count j then shade j i
  else cell (image_matrix width image_height) j i

lemma row_lines_length (width : ℕ) (m : ℕ → ℕ → Vec3) (j : ℕ) :
    (row_lines width m j).length = width := by
  simp [row_lines]

lemma flatten_rows_getD (L : List (List String)) (w : ℕ)
    (hw : ∀ row ∈ L, row.length = w) (k i : ℕ) (hk : k < L.length) (hi : i < w) :
    L.flatten.getD (k * w + i) blank = (L.getD k []).getD i blank := by
  induction L generalizing k with
  | nil => simp at hk
  | cons row rest ih =>
    have hrow : row.length = w := hw row (List.mem_cons_self row rest)
    cases k with
    | zero =>
      rw [List.flatten_cons, Nat.zero_mul, Nat.zero_add,
        List.getD_append _ _ _ _ (by omega)]
      rfl
    | succ k =>
      have hidx : (k + 1) * w + i = row.length + (k * w + i) := by
        rw [hrow]; ring
      rw [List.flatten_cons, hidx, List.getD_append_right _ _ _ _ (by omega),
        Nat.add_sub_cancel_left]
      have hk' : k < rest.length := by simpa using hk
      have hw' : ∀ row ∈ rest, row.length = w := fun r hr => hw r (List.mem_cons_of_mem row hr)
      rw [ih hw' k hk']
      rfl

lemma rows_list_getD (width h : ℕ) (m : ℕ → ℕ → Vec3) (k : ℕ) (hk : k < h) :
    ((List.range h).reverse.map (row_lines width m)).getD k [] = row_lines width m (h - 1 - k) := by
  have hlen : k < ((List.range h).reverse.map (row_lines width m)).length := by simpa using hk
  rw [List.getD_eq_getElem _ _ hlen]
  rw [List.getElem_map]
  congr 1
  rw [List.getElem_reverse]
  rw [List.getElem_range]
  simp

lemma ppm_lines_length (width height : ℕ) (m : ℕ → ℕ → Vec3) :
    (ppm_lines width height m).length = 3 + width * height := by
  unfold ppm_lines
  rw [List.length_append, List.length_flatten, List.map_map]
  have hconst : (List.length ∘ row_lines width m) = fun _ => width := by
    funext j
    exact row_lines_length width m j
  rw [hconst]
  simp [header_lines, List.map_const', List.sum_replicate, smul_eq_mul, Nat.mul_comm]

lemma ppm_lines_getD (width height : ℕ) (m : ℕ → ℕ → Vec3) (rr i : ℕ)
    (hrr : rr < height) (hi : i < width) :
    (ppm_lines width height m).getD (3 + (rr * width + i)) blank
      = pixel_line (m (height - 1 - rr) i) := by
  unfold ppm_lines
  rw [List.getD_append_right _ _ _ _ (by simp [header_lines])]
  have h3 : 3 + (rr * width + i) - (header_lines width height).length = rr * width + i := by
    simp [header_lines]
  rw [h3]
  have hw : ∀ row ∈ (List.range height).reverse.map (row_lines width m), row.length = width := by
    intro row hrow
    obtain ⟨j, _, rfl⟩ := List.mem_map.mp hrow
    exact row_lines_length width m j
  have hk : rr < ((List.range height).reverse.map (row_lines width m)).length := by simpa using hrr
  rw [flatten_rows_getD _ width hw rr i hk hi]
  rw [rows_list_getD width height m rr hrr]
  have hi' : i < (List.range width).length := by simpa using hi
  unfold row_lines
  rw [List.getD_eq_getElem _ _ (by simpa using hi)]
  rw [List.getElem_map, List.getElem_range]

lemma getD_replicate {α : Type} (n k : ℕ) (a d : α) :
    (List.replicate n a).getD k d = if k < n then a else d := by
  rcases Nat.lt_or_ge k n with h | h
  · rw [if_pos h, List.getD_eq_getElem _ _ (by simpa using h)]
    simp
  · rw [if_neg (by omega), List.getD_eq_default _ _ (by simpa using h)]

lemma cpp_int_range (q : ℚ) (h0 : 0 ≤ q) (h255 : q ≤ 255) :
    0 ≤ cpp_int q ∧ cpp_int q ≤ 255 := by
  unfold cpp_int
  rw [if_pos h0]
  constructor
  · exact Int.floor_nonneg.mpr h0
  · have hq : (⌊q⌋ : ℚ) ≤ ((255 : ℤ) : ℚ) := le_trans (Int.floor_le q) (by exact_mod_cast h255)
    exact_mod_cast hq

/-- Claim C6: the output file is exactly the 3-line header (`P3`,
`<width> <height>`, `255`) followed by exactly `width * height` pixel
lines in row-major order from the top visual row (buffer row
`height - 1`) down to the bottom, every pixel line being the three
channel values as space-separated integers in `[0, 255]` whenever the
buffer cells lie in `[0, 255]` per channel. -/
theorem ppm_output_format (width height : ℕ) (m : ℕ → ℕ → Vec3)
    (hrange : ∀ j i, j < height → i < width →
      0 ≤ (m j i).x ∧ (m j i).x ≤ 255 ∧ 0 ≤ (m j i).y ∧ (m j i).y ≤ 255 ∧
      0 ≤ (m j i).z ∧ (m j i).z ≤ 255) :
    (ppm_lines width height m).length = 3 + width * height ∧
    (ppm_lines width height m).take 3
      = ["P3", toString width ++ " " ++ toString height, "255"] ∧
    (∀ rr i, rr < height → i < width →
      (ppm_lines width height m).getD (3 + (rr * width + i)) blank
        = pixel_line (m (height - 1 - rr) i)) ∧
    (∀ s ∈ (ppm_lines width height m).drop 3, ∃ a b c : ℤ,
      0 ≤ a ∧ a ≤ 255 ∧ 0 ≤ b ∧ b ≤ 255 ∧ 0 ≤ c ∧ c ≤ 255 ∧
      s = toString a ++ " " ++ toString b ++ " " ++ toString c) := by
  refine ⟨ppm_lines_length width height m, ?_, ?_, ?_⟩
  · unfold ppm_lines header_lines
    simp
  · intro rr i hrr hi
    exact ppm_lines_getD width height m rr i hrr hi
  · intro s hs
    unfold ppm_lines at hs
    rw [show (3 : ℕ) = (header_lines width height).length from rfl,
      List.drop_left] at hs
    obtain ⟨row, hrow, hsrow⟩ := List.mem_flatten.mp hs
    obtain ⟨j, hj, rfl⟩ := List.mem_map.mp hrow
    have hjh : j < height := List.mem_range.mp (List.mem_reverse.mp hj)
    obtain ⟨i, hi, rfl⟩ := List.mem_map.mp hsrow
    have hiw : i < width := List.mem_range.mp hi
    obtain ⟨hx0, hx1, hy0, hy1, hz0, hz1⟩ := hrange j i hjh hiw
    obtain ⟨ha0, ha1⟩ := cpp_int_range _ hx0 hx1
    obtain ⟨hb0, hb1⟩ := cpp_int_range _ hy0 hy1
    obtain ⟨hc0, hc1⟩ := cpp_int_range _ hz0 hz1
    exact ⟨cpp_int (m j i).x, cpp_int (m j i).y, cpp_int (m j i).z,
      ha0, ha1, hb0, hb1, hc0, hc1, rfl⟩

/-- Witness for claim C6 at a concrete 2-by-2 all-black buffer: exactly 3
header lines followed by exactly 4 pixel lines. -/
theorem ppm_output_format_witness :
    (ppm_lines 2 2 (fun _ _ => ⟨0, 0, 0⟩)).length = 3 + 2 * 2 ∧
    (ppm_lines 2 2 (fun _ _ => ⟨0, 0, 0⟩)).take 3
      = ["P3", toString 2 ++ " " ++ toString 2, "255"] ∧
    (∀ rr i, rr < 2 → i < 2 →
      (ppm_lines 2 2 (fun _ _ => ⟨0, 0, 0⟩)).getD (3 + (rr * 2 + i)) blank
        = pixel_line ((fun _ _ => (⟨0, 0, 0⟩ : Vec3)) (2 - 1 - rr) i)) ∧
    (∀ s ∈ (ppm_lines 2 2 (fun _ _ => ⟨0, 0, 0⟩)).drop 3, ∃ a b c : ℤ,
      0 ≤ a ∧ a ≤ 255 ∧ 0 ≤ b ∧ b ≤ 255 ∧ 0 ≤ c ∧ c ≤ 255 ∧
      s = toString a ++ " " ++ toString b ++ " " ++ toString c) :=
  ppm_output_format 2 2 (fun _ _ => ⟨0, 0, 0⟩)
    (fun _ _ _ _ => by norm_num)

/-- Claim C10: `image_matrix` initializes every cell of the buffer to the
zero color, and a row the scheduler never assigns to any worker (the
trailing remainder rows when the worker count does not divide the height)
survives to the output dump as all-black pixel lines `0 0 0`, present in
the file rather than absent. -/
theorem image_matrix_zero_unassigned_rows_black (width height thread_count : ℕ)
    (shade : ℕ → ℕ → Vec3) (j i : ℕ) (hj : j < height) (hi : i < width)
    (hun : ¬ ∃ k, k < thread_count ∧ j ∈ band_rows height thread_count k) :
    (∀ j' i', cell (image_matrix width height) j' i' = ⟨0, 0, 0⟩) ∧
    rendered_cell width height thread_count shade j i = ⟨0, 0, 0⟩ ∧
    3 + ((height - 1 - j) * width + i)
      < (ppm_lines width height (rendered_cell width height thread_count shade)).length ∧
    (ppm_lines width height (rendered_cell width height thread_count shade)).getD
      (3 + ((height - 1 - j) * width + i)) blank = "0 0 0" := by
  have hcellzero : ∀ j' i', cell (image_matrix width height) j' i' = ⟨0, 0, 0⟩ := by
    intro j' i'
    unfold cell image_matrix
    rw [getD_replicate]
    split
    · rw [getD_replicate]
      split
      · rfl
      · rfl
    · simp [color_default]
  have hna : row_assigned height thread_count j = false := by
    cases hb : row_assigned height thread_count j with
    | false => rfl
    | true => exact absurd ((row_assigned_iff height thread_count j).mp hb) hun
  have hrc : rendered_cell width height thread_count shade j i = ⟨0, 0, 0⟩ := by
    unfold rendered_cell
    rw [hna]
    simp [hcellzero]
  refine ⟨hcellzero, hrc, ?_, ?_⟩
  · rw [ppm_lines_length]
    have h1 : (height - 1 - j) * width + i < width * height :=
      calc (height - 1 - j) * width + i
          < (height - 1 - j) * width + width := by omega
        _ = (height - 1 - j + 1) * width := by ring
        _ ≤ height * width := Nat.mul_le_mul_right _ (by omega)
        _ = width * height := Nat.mul_comm height width
    omega
  · have hrr : height - 1 - j < height := by omega
    rw [ppm_lines_getD width height _ (height - 1 - j) i hrr hi]
    have hjj : height - 1 - (height - 1 - j) = j := by omega
    rw [hjj]
    have hrc' : rendered_cell width height thread_count shade j i = ⟨0, 0, 0⟩ := hrc
    rw [hrc']
    rfl

/-- Witness for claim C10: height 3, two workers, remainder row 2 is
unassigned and survives as a black pixel line. -/
theorem image_matrix_zero_unassigned_rows_black_witness :
    (∀ j' i', cell (image_matrix 2 3) j' i' = ⟨0, 0, 0⟩) ∧
    rendered_cell 2 3 2 (fun _ _ => ⟨1, 1, 1⟩) 2 0 = ⟨0, 0, 0⟩ ∧
    3 + ((3 - 1 - 2) * 2 + 0)
      < (ppm_lines 2 3 (rendered_cell 2 3 2 (fun _ _ => ⟨1, 1, 1⟩))).length ∧
    (ppm_lines 2 3 (rendered_cell 2 3 2 (fun _ _ => ⟨1, 1, 1⟩))).getD
      (3 + ((3 - 1 - 2) * 2 + 0)) blank = "0 0 0" :=
  image_matrix_zero_unassigned_rows_black 2 3 2 (fun _ _ => ⟨1, 1, 1⟩) 2 0
    (by decide) (by decide) (by decide)

/-- Outcome of the output phase of `main` (main.cpp lines 172-197):
either an abort via `exit(code)` after printing a diagnostic, or a
completed dump of the file lines followed by `return code`. -/
inductive RunOutcome where
  | aborted (diagnostic : String) (code : ℕ)
  | completed (file_lines : List String) (code : ℕ)
deriving DecidableEq, Repr

/-- The output phase of `main` (main.cpp lines 172-197): the success of
`outdata.open("image.ppm")` is abstracted as the flag `open_ok`.  On
failure main prints the diagnostic to stderr and calls `exit(1)`; on
success it writes the header and every pixel line and reaches
`return 0`. -/
def main_output (open_ok : Bool) (width height : ℕ) (m : ℕ → ℕ → Vec3) : RunOutcome :=
  if open_ok then .completed (ppm_lines width height m) 0
  else .aborted "Error: output file could not be opened.\n" 1

/-- Claim C8: the process aborts with a non-zero exit status and a
diagnostic exactly when the output destination cannot be opened; on
success it writes the full image (all `3 + width * height` lines) and
returns status 0 — there is no partial-success outcome. -/
theorem main_output_failure_iff (open_ok : Bool) (width height : ℕ)
    (m : ℕ → ℕ → Vec3) :
    ((∃ d c, main_output open_ok width height m = .aborted d c ∧ c ≠ 0)
      ↔ open_ok = false) ∧
    (open_ok = false → main_output open_ok width height m
      = .aborted "Error: output file could not be opened.\n" 1) ∧
    (open_ok = true →
      main_output open_ok width height m = .completed (ppm_lines width height m) 0 ∧
      (ppm_lines width height m).length = 3 + width * height) := by
  cases open_ok with
  | false =>
    constructor
    · constructor
      · intro _
        rfl
      · intro _
        exact ⟨"Error: output file could not be opened.\n", 1, rfl, one_ne_zero⟩
    · constructor
      · intro _
        rfl
      · intro h
        exact absurd h (by decide)
  | true =>
    constructor
    · constructor
      · rintro ⟨d, c, habs, -⟩
        exact absurd habs (by simp [main_output])
      · intro h
        exact absurd h (by decide)
    · constructor
      · intro h
        exact absurd h (by decide)
      · intro _
        exact ⟨rfl, ppm_lines_length width height m⟩

/-- Witness for claim C8: with the destination unwritable the run aborts
with status 1 and the diagnostic; with it writable the 1-by-1 render
completes with status 0. -/
theorem main_output_failure_iff_witness :
    main_output false 1 1 (fun _ _ => ⟨0, 0, 0⟩)
      = .aborted "Error: output file could not be opened.\n" 1 ∧
    main_output true 1 1 (fun _ _ => ⟨0, 0, 0⟩)
      = .completed (ppm_lines 1 1 (fun _ _ => ⟨0, 0, 0⟩)) 0 :=
  ⟨(main_output_failure_iff false 1 1 (fun _ _ => ⟨0, 0, 0⟩)).2.1 rfl,
   ((main_output_failure_iff true 1 1 (fun _ _ => ⟨0, 0, 0⟩)).2.2 rfl).1⟩

/-- A stream of pseudo-random draws: the sequence of values produced by
successive `random_double()` calls.  The global C `rand()` generator
behind them (rtweekend.h line 28) is abstracted as the stream itself;
each draw lies in `[0, 1)`. -/
abbrev RNG := ℕ → ℚ

/-- `random_double()` (rtweekend.h lines 27-29): consumes the next draw,
returning it together with the rest of the stream. -/
def random_double (g : RNG) : ℚ × RNG :=
  (g 0, fun n => g (n + 1))

/-- `random_double(min, max)` (rtweekend.h lines 31-34):
`min + (max - min) * random_double()`, a draw in `[min, max)`. -/
def random_double_in (mn mx : ℚ) (g : RNG) : ℚ × RNG :=
  (mn + (mx - mn) * (random_double g).1, (random_double g).2)

/-- Modelled from the spec: `color::random()` of the vector library,
three fresh uniform draws in `[0, 1)` as channels. -/
def color_random (g : RNG) : Vec3 × RNG :=
  (⟨(random_double g).1,
    (random_double (random_double g).2).1,
    (random_double (random_double (random_double g).2).2).1⟩,
   (random_double (random_double (random_double g).2).2).2)

/-- Modelled from the spec: `color::random(min, max)` of the vector
library, three fresh uniform draws in `[min, max)` as channels. -/
def color_random_in (mn mx : ℚ) (g : RNG) : Vec3 × RNG :=
  (⟨(random_double_in mn mx g).1,
    (random_double_in mn mx (random_double_in mn mx g).2).1,
    (random_double_in mn mx (random_double_in mn mx (random_double_in mn mx g).2).2).1⟩,
   (random_double_in mn mx (random_double_in mn mx (random_double_in mn mx g).2).2).2)

/-- The material data held by the scene: the closed tagged variant of the
spec's material model with each variant's constructor parameters, exactly
the constructors `random_scene` invokes (main.cpp lines 48, 62, 69, 74,
81, 84, 87). -/
inductive Material where
  | lambertian (albedo : Vec3)
  | metal (albedo : Vec3) (fuzz : ℚ)
  | dielectric (index_of_refraction : ℚ)
deriving DecidableEq, Repr

/-- A sphere of the scene (`sphere.h` constructor as called by
`random_scene`): center, radius, material. -/
structure Sphere where
  center : Vec3
  radius : ℚ
  mat : Material
deriving DecidableEq, Repr

/-- The grid coordinates traversed by the nested loops of `random_scene`
(main.cpp lines 51-52): `a` from -3 to 2 outer, `b` from -3 to 2 inner,
in loop order. -/
def grid_coords : List ℤ := [-3, -2, -1, 0, 1, 2]

def grid_pts : List (ℤ × ℤ) :=
  grid_coords.flatMap (fun a => grid_coords.map (fun b => (a, b)))

/-- Loop body of `random_scene` for grid point `(a, b)` (main.cpp lines
53-77): draw `choose_mat`, then the two jitter draws of the center, and
when the center is farther than 0.9 from `(4, 0.2, 0)` add one small
sphere of radius 0.2 with the material selected by `choose_mat`.  The
source's real comparison `length() > 0.9` is translated as
`length_squared > 0.81`, equivalent over the reals since both sides of
the original are nonnegative; the unspecified C++ evaluation order of the
two jitter draws inside the `point3` constructor is fixed as x before
z. -/
def grid_step (ab : ℤ × ℤ) (g : RNG) : Option Sphere × RNG :=
  let r0 := random_double g
  let r1 := random_double r0.2
  let r2 := random_double r1.2
  let choose_mat := r0.1
  let center : Vec3 := ⟨(ab.1 : ℚ) + 9 / 10 * r1.1, 1 / 5, (ab.2 : ℚ) + 9 / 10 * r2.1⟩
  if (center - ⟨4, 1 / 5, 0⟩).length_squared > 81 / 100 then
    if choose_mat < 4 / 5 then
      let cr1 := color_random r2.2
      let cr2 := color_random cr1.2
      (some ⟨center, 1 / 5, .lambertian (cr1.1 * cr2.1)⟩, cr2.2)
    else if choose_mat < 19 / 20 then
      let alb := color_random_in (1 / 2) 1 r2.2
      let fz := random_double_in 0 (1 / 2) alb.2
      (some ⟨center, 1 / 5, .metal alb.1 fz.1⟩, fz.2)
    else
      (some ⟨center, 1 / 5, .dielectric (3 / 2)⟩, r2.2)
  else
    (none, r2.2)

/-- One `world.add` step of the scene-generator fold: append the grid
point's sphere, if any, and thread the draw stream. -/
def add_step (acc : List Sphere × RNG) (ab : ℤ × ℤ) : List Sphere × RNG :=
  match grid_step ab acc.2 with
  | (some s, g') => (acc.1 ++ [s], g')
  | (none, g') => (acc.1, g')

/-- `random_scene` (main.cpp lines 45-91): the gray ground sphere, then
the grid spheres added in loop order, then the three feature spheres.
`world.add` appends, so the loop is a fold over `grid_pts`. -/
def random_scene (g : RNG) : List Sphere :=
  let ground : Sphere := ⟨⟨0, -1000, 0⟩, 1000, .lambertian ⟨1 / 2, 1 / 2, 1 / 2⟩⟩
  (grid_pts.foldl add_step ([ground], g)).1 ++
    [⟨⟨0, 1, 0⟩, 1, .dielectric (3 / 2)⟩,
     ⟨⟨-4, 1, 0⟩, 1, .lambertian ⟨2 / 5, 1 / 5, 1 / 10⟩⟩,
     ⟨⟨4, 1, 0⟩, 1, .metal ⟨7 / 10, 3 / 5, 1 / 2⟩ 0⟩]

/-- The grid spheres in loop order, as direct recursion over the grid
points with the draw stream threaded through `grid_step`. -/
def grid_spheres : List (ℤ × ℤ) → RNG → List Sphere
  | [], _ => []
  | ab :: rest, g =>
    match grid_step ab g with
    | (some s, g') => s :: grid_spheres rest g'
    | (none, g') => grid_spheres rest g'

/-- Validity of a draw stream: every draw lies in `[0, 1)`, which is what
`random_double()` guarantees (rtweekend.h line 32 comment). -/
def valid_draws (g : RNG) : Prop :=
  ∀ n, 0 ≤ g n ∧ g n < 1

lemma grid_step_snd (ab : ℤ × ℤ) (g : RNG) :
    ∃ k, (grid_step ab g).2 = fun n => g (n + k) := by
  unfold grid_step random_double color_random color_random_in random_double_in
  dsimp only
  split
  · split
    · exact ⟨9, funext fun n => congrArg g (by omega)⟩
    · split
      · exact ⟨7, funext fun n => congrArg g (by omega)⟩
      · exact ⟨3, funext fun n => congrArg g (by omega)⟩
  · exact ⟨3, funext fun n => congrArg g (by omega)⟩

lemma valid_draws_step (ab : ℤ × ℤ) (g : RNG) (hg : valid_draws g) :
    valid_draws (grid_step ab g).2 := by
  obtain ⟨k, hk⟩ := grid_step_snd ab g
  rw [hk]
  exact fun n => hg (n + k)

/-- The shape of a grid sphere at grid point `ab`, as the claim states it:
radius 0.2; center jittered from the grid point by `0.9` times a fresh
draw in x and z at height 0.2; squared distance from the feature point
`(4, 0.2, 0)` above `0.81` (equivalently, distance above 0.9); material
selected by the `choose_mat` draw with the 0.8 / 0.95 thresholds, with
the stated parameter ranges. -/
def small_sphere_spec (ab : ℤ × ℤ) (s : Sphere) : Prop :=
  s.radius = 1 / 5 ∧
  (∃ d1 d2 : ℚ, 0 ≤ d1 ∧ d1 < 1 ∧ 0 ≤ d2 ∧ d2 < 1 ∧
    s.center = ⟨(ab.1 : ℚ) + 9 / 10 * d1, 1 / 5, (ab.2 : ℚ) + 9 / 10 * d2⟩) ∧
  (s.center - ⟨4, 1 / 5, 0⟩).length_squared > 81 / 100 ∧
  (∃ c : ℚ, 0 ≤ c ∧ c < 1 ∧
    ((c < 4 / 5 ∧ ∃ c1 c2 : Vec3,
        (0 ≤ c1.x ∧ c1.x < 1) ∧ (0 ≤ c1.y ∧ c1.y < 1) ∧ (0 ≤ c1.z ∧ c1.z < 1) ∧
        (0 ≤ c2.x ∧ c2.x < 1) ∧ (0 ≤ c2.y ∧ c2.y < 1) ∧ (0 ≤ c2.z ∧ c2.z < 1) ∧
        s.mat = .lambertian (c1 * c2)) ∨
     (4 / 5 ≤ c ∧ c < 19 / 20 ∧ ∃ albedo fuzz,
        (1 / 2 ≤ albedo.x ∧ albedo.x < 1) ∧ (1 / 2 ≤ albedo.y ∧ albedo.y < 1) ∧
        (1 / 2 ≤ albedo.z ∧ albedo.z < 1) ∧ 0 ≤ fuzz ∧ fuzz < 1 / 2 ∧
        s.mat = .metal albedo fuzz) ∨
     (19 / 20 ≤ c ∧ s.mat = .dielectric (3 / 2))))

lemma grid_step_props (ab : ℤ × ℤ) (g : RNG) (hg : valid_draws g) (s : Sphere)
    (hs : (grid_step ab g).1 = some s) : small_sphere_spec ab s := by
  unfold grid_step random_double color_random color_random_in random_double_in at hs
  dsimp only at hs
  split at hs
  · split at hs
    · injection hs with hs
      subst hs
      refine ⟨rfl, ⟨g 1, g 2, (hg 1).1, (hg 1).2, (hg 2).1, (hg 2).2, rfl⟩, ?_, ?_⟩
      · assumption
      · refine ⟨g 0, (hg 0).1, (hg 0).2, Or.inl ⟨by assumption, ?_⟩⟩
        exact ⟨⟨g 3, g 4, g 5⟩, ⟨g 6, g 7, g 8⟩,
          ⟨(hg 3).1, (hg 3).2⟩, ⟨(hg 4).1, (hg 4).2⟩, ⟨(hg 5).1, (hg 5).2⟩,
          ⟨(hg 6).1, (hg 6).2⟩, ⟨(hg 7).1, (hg 7).2⟩, ⟨(hg 8).1, (hg 8).2⟩, rfl⟩
    · split at hs
      · injection hs with hs
        subst hs
        refine ⟨rfl, ⟨g 1, g 2, (hg 1).1, (hg 1).2, (hg 2).1, (hg 2).2, rfl⟩, ?_, ?_⟩
        · assumption
        · refine ⟨g 0, (hg 0).1, (hg 0).2, Or.inr (Or.inl ⟨by linarith [(hg 0).1], by assumption, ?_⟩)⟩
          refine ⟨⟨1 / 2 + (1 - 1 / 2) * g 3, 1 / 2 + (1 - 1 / 2) * g 4, 1 / 2 + (1 - 1 / 2) * g 5⟩,
            0 + (1 / 2 - 0) * g 6, ?_, ?_, ?_, ?_, ?_, rfl⟩
          · constructor
            · nlinarith [(hg 3).1]
            · nlinarith [(hg 3).2]
          · constructor
            · nlinarith [(hg 4).1]
            · nlinarith [(hg 4).2]
          · constructor
            · nlinarith [(hg 5).1]
            · nlinarith [(hg 5).2]
          · nlinarith [(hg 6).1]
          · nlinarith [(hg 6).2]
      · injection hs with hs
        subst hs
        refine ⟨rfl, ⟨g 1, g 2, (hg 1).1, (hg 1).2, (hg 2).1, (hg 2).2, rfl⟩, ?_, ?_⟩
        · assumption
        · exact ⟨g 0, (hg 0).1, (hg 0).2, Or.inr (Or.inr ⟨by linarith [(hg 0).1], rfl⟩)⟩
  · exact absurd hs (by simp)

lemma grid_spheres_props (pts : List (ℤ × ℤ)) (g : RNG) (hg : valid_draws g) :
    ∀ s ∈ grid_spheres pts g, ∃ ab ∈ pts, small_sphere_spec ab s := by
  induction pts generalizing g with
  | nil =>
    intro s hs
    simp [grid_spheres] at hs
  | cons ab rest ih =>
    intro s hs
    rw [grid_spheres] at hs
    have hvalid : valid_draws (grid_step ab g).2 := valid_draws_step ab g hg
    revert hs
    cases hstep : grid_step ab g with
    | mk opt g' =>
      rw [hstep] at hvalid
      cases opt with
      | some s0 =>
        intro hs
        rcases List.mem_cons.mp hs with rfl | hmem
        · exact ⟨ab, List.mem_cons_self ab rest,
            grid_step_props ab g hg s (by rw [hstep])⟩
        · obtain ⟨ab', hab', hspec⟩ := ih g' hvalid s hmem
          exact ⟨ab', List.mem_cons_of_mem ab hab', hspec⟩
      | none =>
        intro hs
        obtain ⟨ab', hab', hspec⟩ := ih g' hvalid s hs
        exact ⟨ab', List.mem_cons_of_mem ab hab', hspec⟩

lemma grid_spheres_length_le (pts : List (ℤ × ℤ)) (g : RNG) :
    (grid_spheres pts g).length ≤ pts.length := by
  induction pts generalizing g with
  | nil => simp [grid_spheres]
  | cons ab rest ih =>
    rw [grid_spheres]
    cases hstep : grid_step ab g with
    | mk opt g' =>
      cases opt with
      | some s0 =>
        simpa using Nat.succ_le_succ (ih g')
      | none =>
        simp only [List.length_cons]
        exact Nat.le_succ_of_le (ih g')

lemma foldl_add_step (pts : List (ℤ × ℤ)) (acc : List Sphere) (g : RNG) :
    (pts.foldl add_step (acc, g)).1 = acc ++ grid_spheres pts g := by
  induction pts generalizing acc g with
  | nil => simp [grid_spheres]
  | cons ab rest ih =>
    rw [List.foldl_cons, grid_spheres]
    cases hstep : grid_step ab g with
    | mk opt g' =>
      have hadd : add_step (acc, g) ab
          = match (opt, g') with
            | (some s, g2) => (acc ++ [s], g2)
            | (none, g2) => (acc, g2) := by
        unfold add_step
        rw [hstep]
      cases opt with
      | some s0 =>
        rw [hadd, ih (acc ++ [s0]) g']
        simp
      | none =>
        rw [hadd, ih acc g']

/-- Claim C7: the generated world is exactly the gray diffuse ground
sphere of radius 1000, followed by the grid spheres (at most one per grid
point `(a, b)`, `a, b` ranging over -3..2), followed by the three
unit-radius feature spheres (glass at `(0,1,0)` with index 1.5, diffuse
brown at `(-4,1,0)`, fuzzless metal at `(4,1,0)`); each grid sphere has
radius 0.2, a jittered center kept only beyond distance 0.9 from
`(4, 0.2, 0)`, and its material drawn by the 0.8 / 0.95 thresholds, with
diffuse albedo a product of two random colors, metal albedo in `[0.5, 1]`
with fuzz in `[0, 0.5]`, and dielectric index 1.5. -/
theorem random_scene_structure (g : RNG) (hg : valid_draws g) :
    random_scene g
      = (⟨⟨0, -1000, 0⟩, 1000, .lambertian ⟨1 / 2, 1 / 2, 1 / 2⟩⟩ : Sphere)
        :: (grid_spheres grid_pts g
          ++ [⟨⟨0, 1, 0⟩, 1, .dielectric (3 / 2)⟩,
              ⟨⟨-4, 1, 0⟩, 1, .lambertian ⟨2 / 5, 1 / 5, 1 / 10⟩⟩,
              ⟨⟨4, 1, 0⟩, 1, .metal ⟨7 / 10, 3 / 5, 1 / 2⟩ 0⟩]) ∧
    (grid_spheres grid_pts g).length ≤ grid_pts.length ∧
    ∀ s ∈ grid_spheres grid_pts g, ∃ ab ∈ grid_pts, small_sphere_spec ab s := by
  refine ⟨?_, grid_spheres_length_le grid_pts g, grid_spheres_props grid_pts g hg⟩
  unfold random_scene
  dsimp only
  rw [foldl_add_step grid_pts
    [⟨⟨0, -1000, 0⟩, 1000, .lambertian ⟨1 / 2, 1 / 2, 1 / 2⟩⟩] g]
  simp

/-- Witness for claim C7 at the all-zero draw stream. -/
theorem random_scene_structure_witness :
    random_scene (fun _ => 0)
      = (⟨⟨0, -1000, 0⟩, 1000, .lambertian ⟨1 / 2, 1 / 2, 1 / 2⟩⟩ : Sphere)
        :: (grid_spheres grid_pts (fun _ => 0)
          ++ [⟨⟨0, 1, 0⟩, 1, .dielectric (3 / 2)⟩,
              ⟨⟨-4, 1, 0⟩, 1, .lambertian ⟨2 / 5, 1 / 5, 1 / 10⟩⟩,
              ⟨⟨4, 1, 0⟩, 1, .metal ⟨7 / 10, 3 / 5, 1 / 2⟩ 0⟩]) ∧
    (grid_spheres grid_pts (fun _ => 0)).length ≤ grid_pts.length ∧
    ∀ s ∈ grid_spheres grid_pts (fun _ => 0),
      ∃ ab ∈ grid_pts, small_sphere_spec ab s :=
  random_scene_structure (fun _ => 0) (fun _ => by norm_num)

end RayTracer
